import Mathlib

/-!
Verification development for the osmFISH spot-detection-and-decoding pipeline
described by the repository specification. The repository itself is a single
notebook that orchestrates calls into an external image-analysis library; the
pipeline stages the claims speak about (filtering, z-projection, peak finding,
decoding) are therefore modelled here from the specification's component
contracts, while the notebook-level benchmark-loading code is embedded
directly from the source.
-/

namespace OsmFish

/-! ## Image stacks and z-projection (spec section 4.3) -/

/-- Modelled from the spec: an ImageStack is a dense multi-dimensional array of
intensity values indexed by named axes (round, channel, z-plane, y, x). -/
structure ImageStack (R C Z Y X : ℕ) where
  data : Fin R → Fin C → Fin Z → Fin Y → Fin X → ℚ

/-- Modelled from the spec: the z-projection with aggregation function `max`
removes the z-plane axis; each output pixel is the aggregate of all values
along the eliminated axis at that (y, x) position, independently per
round/channel. The z extent is written `Z + 1`: the stack invariant fixes the
axis extents for the stack's lifetime and a stack holds at least one plane. -/
def maxProjZ {R C Z Y X : ℕ} (s : ImageStack R C (Z + 1) Y X) :
    ImageStack R C 1 Y X :=
  ⟨fun r c _ y x =>
    Finset.univ.sup' Finset.univ_nonempty (fun z => s.data r c z y x)⟩

/-! ## Background-suppression filter (spec section 4.1)

Modelled from the spec: the Gaussian high-pass filter computes a smoothed
(low-pass) version of the image and subtracts it from the original, clipping
negative results to zero.  The smoothing is a normalized weighted average: the
kernel weight row attached to each output position sums to 1 (a Gaussian
kernel is normalized, and reflect/extend boundary handling folds the boundary
mass back into in-range positions, preserving the sum). -/

/-- Modelled from the spec: low-pass smoothing of an image by a position
dependent kernel `w`, as a weighted average over the image positions. -/
def smooth {n : ℕ} (w : Fin n → Fin n → ℚ) (img : Fin n → ℚ) : Fin n → ℚ :=
  fun p => ∑ q, w p q * img q

/-- A kernel is normalized when each of its rows sums to one. -/
def NormalizedKernel {n : ℕ} (w : Fin n → Fin n → ℚ) : Prop :=
  ∀ p, ∑ q, w p q = 1

/-- Modelled from the spec: the Gaussian high-pass filter subtracts the
smoothed image from the original and clips negative results to zero. -/
def gaussianHighPass {n : ℕ} (w : Fin n → Fin n → ℚ) (img : Fin n → ℚ) :
    Fin n → ℚ :=
  fun p => max (img p - smooth w img p) 0

/-! ## Spot-enhancement filter (spec section 4.2) -/

/-- Modelled from the spec: the smoothing kernel reaches three standard
deviations, rounded up; the radius is zero exactly when sigma is zero.
Images are modelled on an unbounded grid, which the spec's fixed boundary
policy extends every finite image to. -/
def kernelRadius (sigma : ℚ) : ℕ :=
  (⌈3 * |sigma|⌉ : ℤ).toNat

/-- Modelled from the spec: the low-pass smoothing component at scale
`sigma`, a normalized convolution with the binomial kernel
C(2r, r+k) / 4^r of radius `r = kernelRadius sigma` — the standard discrete
approximation of a Gaussian of that scale.  At radius 0 the kernel is the
delta kernel. -/
def gaussSmooth (sigma : ℚ) (img : ℤ → ℚ) : ℤ → ℚ :=
  fun p =>
    (∑ j ∈ Finset.range (2 * kernelRadius sigma + 1),
        (Nat.choose (2 * kernelRadius sigma) j : ℚ) *
          img (p + (j : ℤ) - (kernelRadius sigma : ℤ))) /
      4 ^ kernelRadius sigma

/-- The discrete second-derivative (one-dimensional Laplacian) operator. -/
def secondDiff (img : ℤ → ℚ) : ℤ → ℚ :=
  fun p => img (p - 1) - 2 * img p + img (p + 1)

/-- Modelled from the spec: the spot-enhancement (Laplace) filter applies a
scale-normalized second-derivative-based operator with smoothing scale
`sigma`: the discrete second derivative of the sigma-smoothed image, scale
normalized by the factor sigma². -/
def laplaceFilter (sigma : ℚ) (img : ℤ → ℚ) : ℤ → ℚ :=
  fun p => sigma ^ 2 * secondDiff (gaussSmooth sigma img) p

/-! ## Peak finder (spec section 4.4)

Modelled from the spec: the threshold-sweep local-maxima finder.  A 2D image
is a height, a width and a pixel intensity function; positions are (y, x)
pairs visited in row-major scan order. -/

/-- Modelled from the spec: a 2D intensity image (one round/channel after
z-projection). Intensities outside the h × w extent are irrelevant. -/
structure PImage where
  h : ℕ
  w : ℕ
  pix : ℕ × ℕ → ℚ

/-- Modelled from the spec: the peak-finder parameter set
{min_distance, stringency, min_obj_area, max_obj_area, volume flag}. -/
structure PeakParams where
  minDistance : ℕ
  stringency : ℕ
  minObjArea : ℕ
  maxObjArea : ℕ
  isVolume : Bool

/-- All in-range positions of an image, in row-major scan order. -/
def positions (im : PImage) : List (ℕ × ℕ) :=
  (List.range im.h).flatMap (fun y => (List.range im.w).map (fun x => (y, x)))

/-- Row-major scan index of a position, used for deterministic tie-breaking. -/
def scanIdx (im : PImage) (p : ℕ × ℕ) : ℕ :=
  p.1 * im.w + p.2

/-- Chebyshev distance between grid positions: the sliding-window local-maximum
test compares a pixel against every pixel within this distance. -/
def cheb (p q : ℕ × ℕ) : ℕ :=
  max (max (p.1 - q.1) (q.1 - p.1)) (max (p.2 - q.2) (q.2 - p.2))

/-- Modelled from the spec, step 1: a pixel qualifies as a local-maximum
candidate if it is the maximum value within a neighborhood of the given
minimum distance in all directions, ties broken by first-found in scan
order. -/
def isCandidate (im : PImage) (d : ℕ) (p : ℕ × ℕ) : Bool :=
  (positions im).all fun q =>
    q == p || decide (d < cheb p q) || decide (im.pix q < im.pix p) ||
      (decide (im.pix q = im.pix p) && decide (scanIdx im p < scanIdx im q))

/-- The local-maximum candidate set, in scan order. -/
def candidates (im : PImage) (d : ℕ) : List (ℕ × ℕ) :=
  (positions im).filter (isCandidate im d)

/-- The positions whose intensity is at least the threshold, in scan order. -/
def atLeast (im : PImage) (t : ℚ) : List (ℕ × ℕ) :=
  (positions im).filter (fun p => decide (t ≤ im.pix p))

/-- 4-connected grid neighbours of a position. -/
def nbrs (p : ℕ × ℕ) : List (ℕ × ℕ) :=
  [(p.1 + 1, p.2), (p.1, p.2 + 1)] ++
    (if p.1 = 0 then [] else [(p.1 - 1, p.2)]) ++
    (if p.2 = 0 then [] else [(p.1, p.2 - 1)])

/-- Fuel-bounded breadth-first growth of the connected component of a set `S`
of positions: `comp` is the component found so far, `frontier` its newly added
positions. -/
def growComp (S : List (ℕ × ℕ)) : ℕ → List (ℕ × ℕ) → List (ℕ × ℕ) →
    List (ℕ × ℕ)
  | 0, comp, _ => comp
  | fuel + 1, comp, frontier =>
    let fresh := ((frontier.flatMap nbrs).dedup).filter
      (fun q => S.contains q && !comp.contains q)
    match fresh with
    | [] => comp
    | _ => growComp S fuel (comp ++ fresh) fresh

/-- The 4-connected component of `seed` inside the position set `S`. -/
def componentOf (S : List (ℕ × ℕ)) (seed : ℕ × ℕ) : List (ℕ × ℕ) :=
  growComp S S.length [seed] [seed]

/-- Helper for `components`: walk the positions of `S` in scan order, starting
a new component at each position not already covered. -/
def componentsGo (S : List (ℕ × ℕ)) : List (ℕ × ℕ) → List (ℕ × ℕ) →
    List (List (ℕ × ℕ))
  | [], _ => []
  | p :: rest, seen =>
    if seen.contains p then componentsGo S rest seen
    else
      (componentOf S p) :: componentsGo S rest (seen ++ componentOf S p)

/-- The 4-connected components of a set of positions, in scan order of their
first-found pixel. -/
def components (S : List (ℕ × ℕ)) : List (List (ℕ × ℕ)) :=
  componentsGo S S []

/-- Modelled from the spec, step 2: at threshold `t`, the connected components
of pixels ≥ t that meet the local-maxima candidates, filtered to those whose
area lies within [minimum object area, maximum object area]. -/
def validComps (im : PImage) (pr : PeakParams) (t : ℚ) : List (List (ℕ × ℕ)) :=
  (components (atLeast im t)).filter fun c =>
    decide (pr.minObjArea ≤ c.length) && decide (c.length ≤ pr.maxObjArea) &&
      c.any (fun p => (candidates im pr.minDistance).contains p)

/-- The survivor count at one threshold (one point of the sweep curve). -/
def curveCount (im : PImage) (pr : PeakParams) (t : ℚ) : ℕ :=
  (validComps im pr t).length

/-- Modelled from the spec, step 5: the local-maxima candidates surviving at
threshold `t` after the area filter, in scan order. -/
def peaksAt (im : PImage) (pr : PeakParams) (t : ℚ) : List (ℕ × ℕ) :=
  (candidates im pr.minDistance).filter fun p =>
    (validComps im pr t).any (fun c => c.contains p)

/-- Insert a rational into a sorted list, keeping it sorted. -/
def insertSorted (x : ℚ) : List ℚ → List ℚ
  | [] => [x]
  | y :: ys => if x ≤ y then x :: y :: ys else y :: insertSorted x ys

/-- Insertion sort for rationals. -/
def sortQ : List ℚ → List ℚ
  | [] => []
  | x :: xs => insertSorted x (sortQ xs)

/-- Modelled from the spec, step 2: the swept thresholds, a range over the
image's intensity distribution taken here as the sorted distinct pixel
values (percentile bounds at the extremes). -/
def thresholds (im : PImage) : List ℚ :=
  sortQ (((positions im).map im.pix).dedup)

/-- Modelled from the spec, step 3: the (threshold, survivor count) curve. -/
def curve (im : PImage) (pr : PeakParams) : List (ℚ × ℕ) :=
  (thresholds im).map (fun t => (t, curveCount im pr t))

/-- Split a curve into maximal runs of consecutive points sharing the same
survivor count. -/
def runsOf : List (ℚ × ℕ) → List (List (ℚ × ℕ))
  | [] => []
  | x :: xs =>
    match runsOf xs with
    | [] => [[x]]
    | r :: rs =>
      match r with
      | [] => [x] :: r :: rs
      | y :: _ => if x.2 = y.2 then (x :: r) :: rs else [x] :: r :: rs

/-- The longest run, earliest first on ties. -/
def longestRunOf (rs : List (List (ℚ × ℕ))) : List (ℚ × ℕ) :=
  rs.foldl (fun best r => if best.length < r.length then r else best) []

/-- Modelled from the spec, steps 4 and 5 with the documented fallback: the
selected threshold is the first threshold of the longest plateau of the curve,
shifted along the curve by the stringency parameter (clamped to the sweep
range); when no plateau exists the deterministic fallback selects the earliest
threshold yielding the fewest survivors above a non-zero floor; `none` when
every threshold has zero survivors, in which case no peaks are called. -/
def selectThreshold (im : PImage) (pr : PeakParams) : Option ℚ :=
  let c := curve im pr
  let lr := longestRunOf (runsOf c)
  match lr with
  | [] => none
  | q :: _ =>
    if 2 ≤ lr.length then
      let i := c.findIdx (fun x => x.1 == q.1)
      (c.get? (min (i + pr.stringency) (c.length - 1))).map Prod.fst
    else
      match c.filter (fun x => decide (0 < x.2)) with
      | [] => none
      | x :: xs =>
        some ((xs.foldl (fun best y => if y.2 < best.2 then y else best) x).1)

/-- Modelled from the spec: the full threshold-sweep local-maxima finder; its
output SpotSet is the ordered list of surviving peak positions paired with
their intensities. -/
def findPeaks (im : PImage) (pr : PeakParams) : List ((ℕ × ℕ) × ℚ) :=
  match selectThreshold im pr with
  | none => []
  | some t => (peaksAt im pr t).map (fun p => (p, im.pix p))

/-! ## In-place versus copy semantics (spec sections 3 and 4.1)

Modelled from the spec: a filter run either returns a new image (the source is
not mutated) or, when the in-place flag is set, overwrites the source.  The
call is modelled as a state transformer returning the produced image together
with the state of the source image after the call. -/

/-- Modelled from the spec: running a filter `f` on a source image with an
in-place flag.  The first component is the returned image, the second is the
source image as observable after the call. -/
def runFilter {α : Type} (f : α → α) (img : α) (inPlace : Bool) : α × α :=
  (f img, if inPlace then f img else img)

/-! ## Per-round-max-channel decoder (spec section 4.5) -/

/-- Modelled from the spec: a detected spot with its (round, channel)
provenance, spatial coordinates and intensity. -/
structure Spot where
  round : ℕ
  channel : ℕ
  y : ℚ
  x : ℚ
  intensity : ℚ

/-- Modelled from the spec: the fixed policy for a spot whose (round, channel)
pair has no codebook entry — it is either dropped or labeled unidentified. -/
inductive MismatchPolicy where
  | drop
  | labelUnidentified

/-- Modelled from the spec: sequential per-round-max-channel decoding. The
codebook is a read-only mapping queryable by (round, channel) → gene identity;
each spot already belongs to exactly one (round, channel) pair, and decoding
looks up that pair and attaches the gene to the spot's record. A row whose
gene field is `none` carries the documented unidentified marker; under the
drop policy unmatched spots produce no row. -/
def decodeSpots (cb : ℕ × ℕ → Option String) :
    MismatchPolicy → List Spot → List (Spot × Option String)
  | .labelUnidentified, spots =>
    spots.map (fun s => (s, cb (s.round, s.channel)))
  | .drop, spots =>
    spots.filterMap (fun s => (cb (s.round, s.channel)).map (fun g => (s, some g)))

/-! ## Benchmark peak loading (embedded from the notebook source) -/

/-- The benchmark artifact: a deserialized record holding an N×2 array
`selected_peaks` of spatial coordinates (each row a pair of coordinates) and a
length-N array `selected_peaks_int` of intensities. -/
structure BenchmarkArtifact where
  selected_peaks : List (ℚ × ℚ)
  selected_peaks_int : List ℚ

/-- One row of the benchmark peak table built by `get_benchmark_peaks`. -/
structure BenchRow where
  y : ℚ
  x : ℚ
  intensity : ℚ

/-- Embedded from the notebook source: `get_benchmark_peaks(loaded_results,
redo_flag)`. With `redo_flag=False` it builds a data frame whose `y` column is
`selected_peaks[:, 0]`, whose `x` column is `selected_peaks[:, 1]`, and whose
`selected_peaks_int` column is `selected_peaks_int`; the data-frame
constructor requires all columns to share one length, else the call fails.
With `redo_flag=True` the source calls a function `peaks` that is defined
nowhere in the repository, so that branch always fails with a name error. -/
def get_benchmark_peaks (loaded : BenchmarkArtifact) :
    Bool → Option (List BenchRow)
  | true => none
  | false =>
    if loaded.selected_peaks.length = loaded.selected_peaks_int.length then
      some ((loaded.selected_peaks.zip loaded.selected_peaks_int).map
        (fun pq => ⟨pq.1.1, pq.1.2, pq.2⟩))
    else none

/-- Embedded from the notebook source: `benchmark_spot_count =
len(benchmark_peaks)`. -/
def benchmark_spot_count (tbl : List BenchRow) : ℕ :=
  tbl.length

/-! ## Concrete inputs used by witnesses and counterexamples -/

/-- A concrete 1 × 7 image, row [3, 2, 0, 1, 0, 0, 0]. -/
def c7Img : PImage :=
  ⟨1, 7, fun p => [(3 : ℚ), 2, 0, 1, 0, 0, 0].getD p.2 0⟩

/-- Peak-finder parameters with min_distance 6 replaced by 1 for the tiny
image, stringency 0, the given minimum object area, and max object area
100. -/
def c7Params (amin : ℕ) : PeakParams :=
  ⟨1, 0, amin, 100, true⟩

/-- A concrete 1 × 4 image, row [2, 0, 1, 0]. -/
def c6Img : PImage :=
  ⟨1, 4, fun p => [(2 : ℚ), 0, 1, 0].getD p.2 0⟩

/-- Concrete peak-finder parameters for the determinism witness. -/
def c6Params : PeakParams :=
  ⟨1, 0, 1, 10, true⟩

/-- A concrete benchmark artifact with two peaks. -/
def c9Artifact : BenchmarkArtifact :=
  ⟨[(1, 2), (3, 4)], [5, 6]⟩

/-! ## Theorems -/

theorem imageStack_ext {R C Z Y X : ℕ} {s t : ImageStack R C Z Y X}
    (h : ∀ r c z y x, s.data r c z y x = t.data r c z y x) : s = t := by
  cases s; cases t
  simp only [ImageStack.mk.injEq]
  funext r c z y x
  exact h r c z y x

/-- Claim C2: the max z-projection removes the z-plane axis, and every output
pixel at (round, channel, y, x) equals the maximum of all input values along
the z axis at that position, independently per round/channel: it bounds each
input z-value from above and is attained by some z-value. (The operation is a
Lean function of the input stack, hence pure with no effect on the input.) -/
theorem C2_maxProjZ_is_pointwise_max {R C Z Y X : ℕ}
    (s : ImageStack R C (Z + 1) Y X) (r : Fin R) (c : Fin C) (z0 : Fin 1)
    (y : Fin Y) (x : Fin X) :
    (∀ z, s.data r c z y x ≤ (maxProjZ s).data r c z0 y x) ∧
      (∃ z, (maxProjZ s).data r c z0 y x = s.data r c z y x) := by
  constructor
  · intro z
    exact Finset.le_sup' (fun z => s.data r c z y x) (Finset.mem_univ z)
  · obtain ⟨z, _, hz⟩ :=
      Finset.exists_mem_eq_sup' (Finset.univ_nonempty (α := Fin (Z + 1)))
        (fun z => s.data r c z y x)
    exact ⟨z, hz⟩

/-- Claim C3: max z-projection is idempotent — applying it to a stack that
already has a single z-plane returns the same image. -/
theorem C3_maxProjZ_idempotent {R C Y X : ℕ} (s : ImageStack R C 1 Y X) :
    maxProjZ s = s := by
  apply imageStack_ext
  intro r c z y x
  show Finset.univ.sup' Finset.univ_nonempty (fun z' => s.data r c z' y x) =
    s.data r c z y x
  apply le_antisymm
  · apply Finset.sup'_le
    intro z' _
    have hz' : z' = z := Subsingleton.elim z' z
    rw [hz']
  · exact Finset.le_sup' (fun z' => s.data r c z' y x) (Finset.mem_univ z)

/-- Claim C4: applying the Gaussian high-pass filter (smooth, subtract,
clip negatives to zero) to a constant-valued image yields the all-zero
image. -/
theorem C4_ghp_constant_is_zero {n : ℕ} (w : Fin n → Fin n → ℚ)
    (hw : NormalizedKernel w) (v : ℚ) :
    gaussianHighPass w (fun _ => v) = fun _ => 0 := by
  funext p
  have hs : smooth w (fun _ => v) p = v := by
    simp only [smooth, ← Finset.sum_mul, hw p, one_mul]
  simp [gaussianHighPass, hs]

theorem C4_witness :
    NormalizedKernel (fun _ _ : Fin 1 => (1 : ℚ)) ∧
      gaussianHighPass (fun _ _ : Fin 1 => (1 : ℚ)) (fun _ => (5 : ℚ)) =
        fun _ => 0 := by
  have h : NormalizedKernel (fun _ _ : Fin 1 => (1 : ℚ)) := by
    intro p
    simp
  exact ⟨h, C4_ghp_constant_is_zero _ h 5⟩

theorem C5_counterexample :
    ¬ laplaceFilter 0 (laplaceFilter 0 (fun _ => (1 : ℚ))) =
        fun _ => (1 : ℚ) := by
  intro h
  have h0 := congrFun h 0
  norm_num [laplaceFilter] at h0

/-- Claim C5 (amended): at sigma = 0 the Gaussian smoothing component of the
spot-enhancement filter is a no-op (its kernel radius vanishes, leaving the
delta kernel), but the scale-normalization factor sigma² annihilates the
second-derivative output: the filter applied twice with sigma = 0 yields the
all-zero image rather than the input, so it is a no-op only on the all-zero
image. -/
theorem C5_laplace_sigma_zero_twice (img : ℤ → ℚ) :
    gaussSmooth 0 img = img ∧
      laplaceFilter 0 (laplaceFilter 0 img) = fun _ => 0 := by
  constructor
  · funext p
    have hr : kernelRadius 0 = 0 := by
      norm_num [kernelRadius]
    simp [gaussSmooth, hr, Finset.sum_range_one]
  · funext p
    norm_num [laplaceFilter]

/-- Claim C6: the peak finder is deterministic — two runs on the identical
image with identical parameters return the identical ordered spot list (same
positions, same intensities, same order). -/
theorem C6_findPeaks_deterministic (im₁ im₂ : PImage) (pr₁ pr₂ : PeakParams)
    (him : im₁ = im₂) (hpr : pr₁ = pr₂) :
    findPeaks im₁ pr₁ = findPeaks im₂ pr₂ := by
  rw [him, hpr]

theorem C6_witness :
    findPeaks c6Img c6Params = findPeaks c6Img c6Params :=
  C6_findPeaks_deterministic c6Img c6Img c6Params c6Params rfl rfl

theorem mem_validComps_mono {im : PImage} {pr₁ pr₂ : PeakParams} {t : ℚ}
    (hd : pr₁.minDistance = pr₂.minDistance)
    (hmax : pr₁.maxObjArea = pr₂.maxObjArea)
    (hmin : pr₁.minObjArea ≤ pr₂.minObjArea)
    {c : List (ℕ × ℕ)} (hc : c ∈ validComps im pr₂ t) :
    c ∈ validComps im pr₁ t := by
  unfold validComps at hc ⊢
  rw [List.mem_filter] at hc ⊢
  obtain ⟨hmem, hpred⟩ := hc
  refine ⟨hmem, ?_⟩
  simp only [Bool.and_eq_true, decide_eq_true_eq] at hpred ⊢
  obtain ⟨⟨h1, h2⟩, h3⟩ := hpred
  refine ⟨⟨le_trans hmin h1, ?_⟩, ?_⟩
  · rw [hmax]
    exact h2
  · rw [hd]
    exact h3

/-- Claim C7 (amended): for a fixed image and a fixed sweep threshold,
raising the minimum object area (other parameters unchanged) never increases
the number of local-maxima candidates surviving the area filter at that
threshold; the end-to-end peak count after automatic threshold re-selection
is not monotone (see the counterexample). -/
theorem C7_peaksAt_antitone_in_minObjArea (im : PImage) (pr₁ pr₂ : PeakParams)
    (t : ℚ) (hd : pr₁.minDistance = pr₂.minDistance)
    (hmax : pr₁.maxObjArea = pr₂.maxObjArea)
    (hmin : pr₁.minObjArea ≤ pr₂.minObjArea) :
    (peaksAt im pr₂ t).length ≤ (peaksAt im pr₁ t).length := by
  unfold peaksAt
  rw [← hd]
  apply List.Sublist.length_le
  apply List.monotone_filter_right
  intro p hp
  rw [List.any_eq_true] at hp ⊢
  obtain ⟨c, hc, hcp⟩ := hp
  exact ⟨c, mem_validComps_mono hd hmax hmin hc, hcp⟩

theorem C7_counterexample :
    (c7Params 1).minObjArea ≤ (c7Params 2).minObjArea ∧
      (c7Params 1).minDistance = (c7Params 2).minDistance ∧
      (c7Params 1).maxObjArea = (c7Params 2).maxObjArea ∧
      ¬ ((findPeaks c7Img (c7Params 2)).length ≤
          (findPeaks c7Img (c7Params 1)).length) := by
  refine ⟨by decide, rfl, rfl, by decide⟩

theorem C7_witness :
    (c7Params 1).minObjArea ≤ (c7Params 2).minObjArea ∧
      (peaksAt c7Img (c7Params 2) 1).length ≤
        (peaksAt c7Img (c7Params 1) 1).length :=
  ⟨by decide,
    C7_peaksAt_antitone_in_minObjArea c7Img (c7Params 1) (c7Params 2) 1 rfl rfl
      (by decide)⟩

/-- Claim C8: decoding is complete — under the label policy every spot of the
input SpotSet appears exactly once and in order in the decoded table, carrying
either its gene label or the unidentified marker; under the drop policy the
rows are exactly the spots whose (round, channel) pair has a codebook entry,
and the number of dropped rows equals the number of spots whose (round,
channel) pair has no codebook entry. -/
theorem C8_decode_complete (cb : ℕ × ℕ → Option String) (spots : List Spot) :
    ((decodeSpots cb .labelUnidentified spots).map Prod.fst = spots) ∧
      ((decodeSpots cb .drop spots).map Prod.fst =
        spots.filter (fun s => (cb (s.round, s.channel)).isSome)) ∧
      (spots.length - (decodeSpots cb .drop spots).length =
        (spots.filter (fun s => (cb (s.round, s.channel)).isNone)).length) := by
  have h : ((decodeSpots cb .labelUnidentified spots).map Prod.fst = spots) ∧
      ((decodeSpots cb .drop spots).map Prod.fst =
        spots.filter (fun s => (cb (s.round, s.channel)).isSome)) ∧
      ((decodeSpots cb .drop spots).length +
          (spots.filter (fun s => (cb (s.round, s.channel)).isNone)).length =
        spots.length) := by
    induction spots with
    | nil => exact ⟨rfl, rfl, rfl⟩
    | cons s rest ih =>
      obtain ⟨ih1, ih2, ih3⟩ := ih
      simp only [decodeSpots] at ih1 ih2 ih3 ⊢
      refine ⟨?_, ?_, ?_⟩
      · simpa using ih1
      · cases hcb : cb (s.round, s.channel) <;>
          simp [hcb, List.filter_cons, ih2]
      · cases hcb : cb (s.round, s.channel) <;>
          simp [hcb, List.filter_cons] <;>
          omega
  obtain ⟨h1, h2, h3⟩ := h
  exact ⟨h1, h2, by omega⟩

theorem benchRow_table_getD (ps : List (ℚ × ℚ)) :
    ∀ (qs : List ℚ) (i : ℕ), i < ps.length → i < qs.length →
      ((ps.zip qs).map (fun pq => BenchRow.mk pq.1.1 pq.1.2 pq.2)).getD i
          ⟨0, 0, 0⟩ =
        ⟨(ps.getD i (0, 0)).1, (ps.getD i (0, 0)).2, qs.getD i 0⟩ := by
  induction ps with
  | nil =>
    intro qs i hi _
    exact absurd hi (Nat.not_lt_zero i)
  | cons p ps ih =>
    intro qs i hi hq
    cases qs with
    | nil => exact absurd hq (Nat.not_lt_zero i)
    | cons q qs =>
      cases i with
      | zero => rfl
      | succ j =>
        simp only [List.zip_cons_cons, List.map_cons, List.getD_cons_succ]
        exact ih qs j (Nat.lt_of_succ_lt_succ hi) (Nat.lt_of_succ_lt_succ hq)

/-- Claim C9: with `redo_flag` unset, loading the benchmark artifact whose
`selected_peaks` array has N rows and `selected_peaks_int` N entries yields a
table of exactly N rows, row i taking its y coordinate from column 0 and its
x coordinate from column 1 of `selected_peaks[i]` and its intensity from
`selected_peaks_int[i]`; the benchmark spot count used in the end-to-end
comparison equals N. -/
theorem C9_get_benchmark_peaks (loaded : BenchmarkArtifact) (N : ℕ)
    (hp : loaded.selected_peaks.length = N)
    (hi : loaded.selected_peaks_int.length = N) :
    ∃ tbl, get_benchmark_peaks loaded false = some tbl ∧
      benchmark_spot_count tbl = N ∧
      ∀ i, i < N →
        (tbl.getD i ⟨0, 0, 0⟩).y = (loaded.selected_peaks.getD i (0, 0)).1 ∧
        (tbl.getD i ⟨0, 0, 0⟩).x = (loaded.selected_peaks.getD i (0, 0)).2 ∧
        (tbl.getD i ⟨0, 0, 0⟩).intensity =
          loaded.selected_peaks_int.getD i 0 := by
  refine ⟨(loaded.selected_peaks.zip loaded.selected_peaks_int).map
    (fun pq => ⟨pq.1.1, pq.1.2, pq.2⟩), ?_, ?_, ?_⟩
  · simp only [get_benchmark_peaks]
    rw [if_pos (hp.trans hi.symm)]
  · unfold benchmark_spot_count
    rw [List.length_map, List.length_zip, hp, hi, min_self]
  · intro i hiN
    have h := benchRow_table_getD loaded.selected_peaks
      loaded.selected_peaks_int i (hp ▸ hiN) (hi ▸ hiN)
    rw [h]
    exact ⟨rfl, rfl, rfl⟩

theorem C9_witness :
    c9Artifact.selected_peaks.length = 2 ∧
      c9Artifact.selected_peaks_int.length = 2 ∧
      ∃ tbl, get_benchmark_peaks c9Artifact false = some tbl ∧
        benchmark_spot_count tbl = 2 ∧
        ∀ i, i < 2 →
          (tbl.getD i ⟨0, 0, 0⟩).y = (c9Artifact.selected_peaks.getD i (0, 0)).1 ∧
          (tbl.getD i ⟨0, 0, 0⟩).x = (c9Artifact.selected_peaks.getD i (0, 0)).2 ∧
          (tbl.getD i ⟨0, 0, 0⟩).intensity =
            c9Artifact.selected_peaks_int.getD i 0 :=
  ⟨rfl, rfl, C9_get_benchmark_peaks c9Artifact 2 rfl rfl⟩

/-- Claim C10: running the Gaussian high-pass or Laplace filter with the
in-place flag unset leaves the source image unchanged and returns the newly
computed filtered image. -/
theorem C10_filters_pure_without_in_place {n : ℕ} (w : Fin n → Fin n → ℚ)
    (img : Fin n → ℚ) (sigma : ℚ) (limg : ℤ → ℚ) :
    (runFilter (gaussianHighPass w) img false).2 = img ∧
      (runFilter (gaussianHighPass w) img false).1 = gaussianHighPass w img ∧
      (runFilter (laplaceFilter sigma) limg false).2 = limg ∧
      (runFilter (laplaceFilter sigma) limg false).1 = laplaceFilter sigma limg :=
  ⟨rfl, rfl, rfl, rfl⟩

end OsmFish
